import Mathlib

/-!
The kube-pires web service (`main.go`): a shallow embedding.

The Go program serves four routes with gin: `/` (identity page rendered by
`parseTemplate`), `/health` (`status`), `/css` and `/metrics` (the
`ginmetrics` monitor).  This file embeds the handlers and the monitor
configuration of `main` as Lean functions and proves properties of them.

Modelling conventions

* The operating system is an explicit value `OS`: the result of
  `os.Hostname()`, of `net.Interfaces()` and, per interface, of
  `iface.Addrs()`.
* A Go slice is `Slice α`: the `nil` slice is distinct from a non-nil slice
  with no elements, and indexing is partial.
* A Go function that may call `log.Fatal` or panic returns an `Outcome`:
  `ret v` (normal return), `fatal err` (`log.Fatal err`: the error is logged
  and the process exits with status 1) or `panic msg` (run-time panic).
* A Go `map[string]string` is `StrMap`, a key/value list in which `set`
  keeps keys unique.
* `float64` literals are the rationals they denote.
-/

namespace KubePires

/-! ## Go runtime values -/

/-- Go value of type `error`, identified by its message. -/
structure GoError where
  msg : String
  deriving DecidableEq, Repr

/-- Go slice: `nil`, or a non-nil slice holding `elems` (possibly none). -/
inductive Slice (α : Type) where
  | nil : Slice α
  | mk (elems : List α) : Slice α
  deriving DecidableEq, Repr

namespace Slice

/-- Go comparison `s == nil`. -/
def isNil {α : Type} : Slice α → Bool
  | nil => true
  | mk _ => false

/-- Elements of the slice; the nil slice has none. -/
def toList {α : Type} : Slice α → List α
  | nil => []
  | mk elems => elems

/-- Go builtin `len(s)`. -/
def len {α : Type} (s : Slice α) : Nat := s.toList.length

/-- Go index expression `s[i]`; `none` when `i` is out of range (the
run-time then panics). -/
def index {α : Type} (s : Slice α) (i : Nat) : Option α := s.toList.get? i

end Slice

/-- Result of running a Go function body. -/
inductive Outcome (α : Type) where
  /-- The function returned `val` to its caller. -/
  | ret (val : α) : Outcome α
  /-- The function called `log.Fatal err`: the process exits with status 1. -/
  | fatal (err : GoError) : Outcome α
  /-- The function panicked with the run-time error `msg`. -/
  | panic (msg : String) : Outcome α
  deriving DecidableEq, Repr

namespace Outcome

/-- Sequencing of Go statements: a fatal exit or a panic skips the rest. -/
def bind {α β : Type} (o : Outcome α) (f : α → Outcome β) : Outcome β :=
  match o with
  | ret val => f val
  | fatal err => fatal err
  | panic msg => panic msg

/-- The value handed back to the caller, if the function returned. -/
def returned {α : Type} : Outcome α → Option α
  | ret val => some val
  | fatal _ => none
  | panic _ => none

/-- Whether the run ended in `os.Exit` (through `log.Fatal`). -/
def processExited {α : Type} : Outcome α → Bool
  | ret _ => false
  | fatal _ => true
  | panic _ => false

/-- Exit status of the process when the run ended in `log.Fatal`. -/
def exitStatus {α : Type} : Outcome α → Option Nat
  | ret _ => none
  | fatal _ => some 1
  | panic _ => none

end Outcome

/-- Message of the Go run-time panic for `s[i]` with `len(s) = n`, `i ≥ n`. -/
def indexOutOfRange (i n : Nat) : String :=
  "runtime error: index out of range [" ++ toString i ++ "] with length " ++ toString n

/-! ## `map[string]string` -/

/-- Go `map[string]string`: the entries, at most one per key. -/
structure StrMap where
  entries : List (String × String)
  deriving DecidableEq, Repr

namespace StrMap

/-- Go `make(map[string]string)`. -/
def empty : StrMap := ⟨[]⟩

/-- Entry list after the assignment `m[k] = v`. -/
def setEntries (k v : String) : List (String × String) → List (String × String)
  | [] => [(k, v)]
  | (k', v') :: rest =>
    if k' = k then (k, v) :: rest else (k', v') :: setEntries k v rest

/-- Go assignment `m[k] = v`. -/
def set (m : StrMap) (k v : String) : StrMap := ⟨setEntries k v m.entries⟩

/-- Lookup in an entry list. -/
def getEntries (k : String) : List (String × String) → Option String
  | [] => none
  | (k', v') :: rest => if k' = k then some v' else getEntries k rest

/-- Go lookup `v, ok := m[k]`. -/
def get (m : StrMap) (k : String) : Option String := getEntries k m.entries

/-- Keys of the map. -/
def keys (m : StrMap) : List String := m.entries.map Prod.fst

/-- Go builtin `len(m)`. -/
def len (m : StrMap) : Nat := m.entries.length

end StrMap

/-! ## The operating system as seen by `main.go` -/

/-- Value of interface type `net.Addr`: its two methods. -/
structure Addr where
  Network : String
  String : String
  deriving DecidableEq, Repr

/-- Value of type `net.Interface` together with what its method `Addrs()`
reports; only the field `Name` is read by the program. -/
structure Interface where
  Name : String
  Addrs : Except GoError (Slice Addr)

/-- What the operating system answers to the queries of the program. -/
structure OS where
  /-- Result of `os.Hostname()`. -/
  Hostname : Except GoError String
  /-- Result of `net.Interfaces()`. -/
  Interfaces : Except GoError (List Interface)

/-! ## `hostname` and `getAddress` (main.go, lines 92-126) -/

/-- Go `hostname`: the host name, or `log.Fatal` on error. -/
def hostname (os : OS) : Outcome String :=
  match os.Hostname with
  | .error err => .fatal err
  | .ok name => .ret name

/-- Body of the loop `for _, iface := range listIfaces` of `getAddress`, run
over the interfaces left, with the map built so far. -/
def getAddressLoop : List Interface → StrMap → Outcome StrMap
  | [], address => .ret address
  | iface :: rest, address =>
    match iface.Addrs with
    | .error err => .fatal err
    | .ok addrs =>
      if addrs.isNil then getAddressLoop rest address
      else
        match addrs.index 0 with
        | none => .panic (indexOutOfRange 0 addrs.len)
        | some a => getAddressLoop rest (address.set iface.Name a.String)

/-- Go `getAddress`: interface name to address string. -/
def getAddress (os : OS) : Outcome StrMap :=
  match os.Interfaces with
  | .error err => .fatal err
  | .ok listIfaces => getAddressLoop listIfaces StrMap.empty

/-! ## gin contexts and the handlers (main.go, lines 79-90 and 128-143) -/

/-- Value stored under a key of a `gin.H` (`map[string]any`) by this program. -/
inductive AnyValue where
  | str (s : String) : AnyValue
  | bool (b : Bool) : AnyValue
  | strMap (m : StrMap) : AnyValue
  deriving DecidableEq, Repr

/-- Go `gin.H` built by a map literal: its keys (distinct constants) with
their values. -/
structure H where
  fields : List (String × AnyValue)
  deriving DecidableEq, Repr

namespace H

/-- Keys of the object. -/
def keys (h : H) : List String := h.fields.map Prod.fst

/-- Value stored under a key, if any. -/
def get (h : H) (k : String) : Option AnyValue := h.fields.lookup k

end H

/-- The parts of an HTTP request a handler can read. -/
structure Request where
  Method : String
  Path : String
  Header : List (String × String)
  Body : String
  deriving DecidableEq, Repr

/-- What a handler asked gin to render as the response body. -/
inductive Rendered where
  /-- Nothing rendered yet. -/
  | nothing : Rendered
  /-- Rendered by `Context.JSON`: the object serialised as JSON. -/
  | json (obj : H) : Rendered
  /-- Rendered by `Context.HTML`: the named template executed on `data`. -/
  | html (name : String) (data : H) : Rendered
  deriving DecidableEq, Repr

/-- Response side of a `gin.Context`. -/
structure ResponseWriter where
  status : Nat
  body : Rendered
  deriving DecidableEq, Repr

/-- Go `gin.Context`: the request and the response being written. -/
structure Context where
  Request : Request
  Writer : ResponseWriter
  deriving DecidableEq, Repr

/-- Go constant `http.StatusOK`. -/
def StatusOK : Nat := 200

namespace Context

/-- gin `Context.JSON(code, obj)`: sets the status code and renders `obj` as
the JSON body. -/
def JSON (c : Context) (code : Nat) (obj : H) : Context :=
  { c with Writer := ⟨code, .json obj⟩ }

/-- gin `Context.HTML(code, name, obj)`: sets the status code and hands
`obj` to the template `name`. -/
def HTML (c : Context) (code : Nat) (name : String) (obj : H) : Context :=
  { c with Writer := ⟨code, .html name obj⟩ }

end Context

/-- Go `status`: the handler of `GET /health`. -/
def status (context : Context) : Context :=
  context.JSON StatusOK ⟨[("message", .str "It' works")]⟩

/-- Go `parseTemplate`: the handler of `GET /`.  The calls in the map
literal run in source order: `hostname()`, then `getAddress()`. -/
def parseTemplate (os : OS) (context : Context) : Outcome Context :=
  (hostname os).bind fun name =>
  (getAddress os).bind fun address =>
  .ret (context.HTML StatusOK "index.html"
    ⟨[("Title", .str "kube-pires"), ("Hostname", .str name), ("Addresses", .strMap address)]⟩)

/-! ## `main`: environment and monitor configuration (main.go, lines 145-217) -/

/-- The fields of `ginmetrics.Monitor` that `main` sets. -/
structure Monitor where
  /-- Slow-request threshold, in seconds (`int32`). -/
  slowTime : Int
  metricPath : String
  /-- Upper bounds of the request-duration buckets, in seconds. -/
  reqDuration : List ℚ
  deriving DecidableEq

namespace Monitor

/-- ginmetrics `SetMetricPath`. -/
def SetMetricPath (m : Monitor) (path : String) : Monitor := { m with metricPath := path }

/-- ginmetrics `SetSlowTime`. -/
def SetSlowTime (m : Monitor) (slowTime : Int) : Monitor := { m with slowTime := slowTime }

/-- ginmetrics `SetDuration`. -/
def SetDuration (m : Monitor) (duration : List ℚ) : Monitor := { m with reqDuration := duration }

end Monitor

/-- Route handlers registered by `main`. -/
inductive Handler where
  | parseTemplate : Handler
  | status : Handler
  deriving DecidableEq, Repr

/-- Runs a registered handler. -/
def Handler.run : Handler → OS → Context → Outcome Context
  | .parseTemplate, os, context => KubePires.parseTemplate os context
  | .status, _, context => .ret (KubePires.status context)

/-- What `main` has set up when it calls `router.Run(listen)`. -/
structure Server where
  ginMode : String
  listen : String
  baseurl : String
  /-- The monitor as configured when `metrics.Use(router)` is called. -/
  metrics : Monitor
  /-- The `router.GET` registrations: path and handler. -/
  routes : List (String × Handler)
  deriving DecidableEq

/-- gin `SetMode(value)` (gin library): the empty string is read as the default
mode; "debug", "release" and "test" are accepted; any other value panics. -/
def SetMode (value : String) : Outcome Unit :=
  if value = "" ∨ value = "debug" ∨ value = "release" ∨ value = "test" then .ret ()
  else .panic ("gin mode unknown: " ++ value ++ " (available mode: debug release test)")

/-- The statements of `main` on the monitor object (main.go, lines 181-191):
`SetMetricPath("/metrics")`, `SetSlowTime(10)` and
`SetDuration([]float64{0.1, 0.3, 1.2, 5, 10})`, in this order. -/
def configureMonitor (metrics : Monitor) : Monitor :=
  let metrics := metrics.SetMetricPath "/metrics"
  let metrics := metrics.SetSlowTime 10
  metrics.SetDuration [0.1, 0.3, 1.2, 5, 10]

/-- The `router.GET` calls of `main` (main.go, lines 208-209). -/
def mainRoutes : List (String × Handler) := [("/", .parseTemplate), ("/health", .status)]

/-- Go `main` up to `router.Run`.  `getenv` is `os.Getenv`, `toLower` is
`strings.ToLower`, `loadHTMLGlob` is the result of parsing the templates matched
by `templates/*` (gin `LoadHTMLGlob` panics with the error when it fails) and
`monitor` is the state of the object `ginmetrics.GetMonitor()` returns.  The
package variables start as `protocol = "http"`, `address = "0.0.0.0"`,
`port = "3000"`, `ginMode = "release"`.

The result pairs how the run went (the server set up when `router.Run` is
reached, or the panic that stopped `main`) with the state of the monitor object
at that point. -/
def main (getenv : String → String) (toLower : String → String)
    (loadHTMLGlob : Except GoError Unit) (monitor : Monitor) : Outcome Server × Monitor :=
  let protocol := if getenv "PROTOCOL" ≠ "" then toLower (getenv "PROTOCOL") else "http"
  let address := if getenv "ADDRESS" ≠ "" then toLower (getenv "ADDRESS") else "0.0.0.0"
  let port := if getenv "PORT" ≠ "" then getenv "PORT" else "3000"
  let ginMode := if getenv "GIN_MODE" ≠ "" then getenv "GIN_MODE" else "release"
  match SetMode ginMode with
  | .panic msg => (.panic msg, monitor)
  | .fatal err => (.fatal err, monitor)
  | .ret _ =>
    let listen := address ++ ":" ++ port
    let baseurl := protocol ++ "://" ++ address ++ ":" ++ port
    let metrics := configureMonitor monitor
    match loadHTMLGlob with
    | .error err => (.panic err.msg, metrics)
    | .ok _ =>
      (.ret { ginMode := ginMode, listen := listen, baseurl := baseurl, metrics := metrics,
              routes := mainRoutes }, metrics)

/-! ## Duration histogram of the metrics registry -/

/-- Modelled from the spec: the histogram series of the metrics registry, which
lives in the `ginmetrics` and Prometheus client libraries and is not part of
`main.go`.  It holds the declared bucket upper bounds, one cumulative count per
declared bucket, the count of the implicit `+Inf` bucket, the running sum and
the running observation count. -/
structure Histogram where
  bounds : List ℚ
  counts : List Nat
  infCount : Nat
  sum : ℚ
  count : Nat
  deriving DecidableEq

namespace Histogram

/-- Modelled from the spec: declaration of a histogram with its bucket
boundaries, before the first observation. -/
def declare (bounds : List ℚ) : Histogram :=
  { bounds := bounds, counts := bounds.map fun _ => 0, infCount := 0, sum := 0, count := 0 }

/-- Modelled from the spec: `record` on a histogram increments the running
count, adds the value to the running sum and increments every bucket whose
upper bound is at least the value (the `+Inf` bucket always is). -/
def record (h : Histogram) (value : ℚ) : Histogram :=
  { bounds := h.bounds
    counts := List.zipWith (fun bound c => if value ≤ bound then c + 1 else c) h.bounds h.counts
    infCount := h.infCount + 1
    sum := h.sum + value
    count := h.count + 1 }

/-- Records a sequence of observations, first to last. -/
def recordAll (h : Histogram) (values : List ℚ) : Histogram := values.foldl record h

end Histogram

/-! ## Vocabulary of the properties -/

/-- First bound address of an interface: element 0 of the list its address
query reports, if the query succeeded and the list has an element. -/
def Interface.firstAddr (iface : Interface) : Option Addr :=
  match iface.Addrs with
  | .error _ => none
  | .ok addrs => addrs.index 0

/-- The interface has at least one bound address. -/
def Interface.hasAddress (iface : Interface) : Bool := iface.firstAddr.isSome

/-- The address query of the interface succeeded and reported the nil slice or
a slice with at least one element. -/
def Interface.plainReport (iface : Interface) : Bool :=
  match iface.Addrs with
  | .error _ => false
  | .ok addrs => addrs.isNil || decide (0 < addrs.len)

/-- Every query of `getAddress` succeeded: `net.Interfaces()` returned a list
and `Addrs()` returned a slice for each interface of it. -/
def OS.successfulReport (os : OS) : Bool :=
  match os.Interfaces with
  | .error _ => false
  | .ok ifaces => ifaces.all fun iface =>
    match iface.Addrs with
    | .error _ => false
    | .ok _ => true

/-! ## Sample inputs -/

/-- A request context for `GET /health` before any handler ran. -/
def sampleContext : Context :=
  ⟨⟨"GET", "/health", [("Accept", "*/*")], ""⟩, ⟨200, .nothing⟩⟩

/-- Loopback interface with an IPv4 and an IPv6 address. -/
def ifaceLo : Interface :=
  ⟨"lo", .ok (.mk [⟨"ip+net", "127.0.0.1/8"⟩, ⟨"ip+net", "::1/128"⟩])⟩

/-- Ethernet interface with one address. -/
def ifaceEth0 : Interface := ⟨"eth0", .ok (.mk [⟨"ip+net", "172.17.0.2/16"⟩])⟩

/-- Tunnel interface with no address, reported as the nil slice. -/
def ifaceTunl0 : Interface := ⟨"tunl0", .ok .nil⟩

/-- Interface with no address, reported as a non-nil slice of length 0. -/
def ifaceGif0 : Interface := ⟨"gif0", .ok (.mk [])⟩

/-- Interface whose address query fails. -/
def ifaceBroken : Interface := ⟨"eth1", .error ⟨"route ip+net: no such network interface"⟩⟩

/-- A container host: every query succeeds. -/
def sampleOS : OS := ⟨.ok "web-1", .ok [ifaceLo, ifaceEth0, ifaceTunl0]⟩

/-- A host on which `net.Interfaces()` fails. -/
def failingOS : OS := ⟨.ok "web-1", .error ⟨"route ip+net: netlinkrib: too many open files"⟩⟩

/-- A host on which the address query of the second interface fails. -/
def addrFailingOS : OS := ⟨.ok "web-1", .ok [ifaceLo, ifaceBroken, ifaceEth0]⟩

/-- A host with an interface that reports an empty, non-nil address slice. -/
def emptySliceOS : OS := ⟨.ok "web-1", .ok [ifaceLo, ifaceGif0]⟩

/-- State of the monitor object before `main` touches it: the defaults of
`ginmetrics` named in the comments of `main`. -/
def defaultMonitor : Monitor := ⟨5, "/debug/metrics", [0.1, 0.3, 1.2, 5, 10]⟩

/-- Environment in which only `GIN_MODE` is set, to `mode`. -/
def envWithGinMode (mode : String) : String → String :=
  fun name => if name = "GIN_MODE" then mode else ""

/-! ## Lemmas on `StrMap` -/

theorem StrMap.getEntries_setEntries_self (k v : String) (es : List (String × String)) :
    StrMap.getEntries k (StrMap.setEntries k v es) = some v := by
  induction es with
  | nil => simp [StrMap.setEntries, StrMap.getEntries]
  | cons p rest ih =>
    obtain ⟨k', v'⟩ := p
    by_cases hk : k' = k
    · simp [StrMap.setEntries, StrMap.getEntries, hk]
    · simp [StrMap.setEntries, StrMap.getEntries, hk, ih]

theorem StrMap.getEntries_setEntries_ne (k v x : String) (hx : x ≠ k)
    (es : List (String × String)) :
    StrMap.getEntries x (StrMap.setEntries k v es) = StrMap.getEntries x es := by
  induction es with
  | nil => simp [StrMap.setEntries, StrMap.getEntries, Ne.symm hx]
  | cons p rest ih =>
    obtain ⟨k', v'⟩ := p
    by_cases hk : k' = k
    · subst hk
      simp [StrMap.setEntries, StrMap.getEntries, Ne.symm hx]
    · by_cases hkx : k' = x
      · subst hkx
        simp [StrMap.setEntries, StrMap.getEntries, hx]
      · simp [StrMap.setEntries, StrMap.getEntries, hk, hkx, ih]

theorem StrMap.mem_keys_setEntries (k v x : String) (es : List (String × String)) :
    x ∈ (StrMap.setEntries k v es).map Prod.fst ↔ x = k ∨ x ∈ es.map Prod.fst := by
  induction es with
  | nil => simp [StrMap.setEntries]
  | cons p rest ih =>
    obtain ⟨k', v'⟩ := p
    by_cases hk : k' = k
    · subst hk
      simp [StrMap.setEntries]
    · simp only [StrMap.setEntries, hk, if_false, List.map_cons, List.mem_cons, ih]
      tauto

theorem StrMap.length_setEntries_le (k v : String) (es : List (String × String)) :
    (StrMap.setEntries k v es).length ≤ es.length + 1 := by
  induction es with
  | nil => simp [StrMap.setEntries]
  | cons p rest ih =>
    obtain ⟨k', v'⟩ := p
    by_cases hk : k' = k
    · simp [StrMap.setEntries, hk]
    · simp only [StrMap.setEntries, hk, if_false, List.length_cons]
      omega

theorem StrMap.nodup_keys_setEntries (k v : String) (es : List (String × String))
    (hes : (es.map Prod.fst).Nodup) : ((StrMap.setEntries k v es).map Prod.fst).Nodup := by
  induction es with
  | nil => simp [StrMap.setEntries]
  | cons p rest ih =>
    obtain ⟨k', v'⟩ := p
    simp only [List.map_cons, List.nodup_cons] at hes
    by_cases hk : k' = k
    · subst hk
      simpa [StrMap.setEntries] using hes
    · simp only [StrMap.setEntries, if_neg hk, List.map_cons, List.nodup_cons,
        StrMap.mem_keys_setEntries]
      exact ⟨fun h => h.elim hk hes.1, ih hes.2⟩

theorem StrMap.getEntries_isSome_iff (x : String) (es : List (String × String)) :
    (StrMap.getEntries x es).isSome = true ↔ x ∈ es.map Prod.fst := by
  induction es with
  | nil => simp [StrMap.getEntries]
  | cons p rest ih =>
    obtain ⟨k', v'⟩ := p
    by_cases hk : k' = x
    · simp [StrMap.getEntries, hk]
    · simp [StrMap.getEntries, hk, ih, Ne.symm hk]

theorem StrMap.get_set_self (m : StrMap) (k v : String) : (m.set k v).get k = some v :=
  StrMap.getEntries_setEntries_self k v m.entries

theorem StrMap.get_set_ne (m : StrMap) (k v x : String) (hx : x ≠ k) :
    (m.set k v).get x = m.get x :=
  StrMap.getEntries_setEntries_ne k v x hx m.entries

theorem StrMap.mem_keys_set (m : StrMap) (k v x : String) :
    x ∈ (m.set k v).keys ↔ x = k ∨ x ∈ m.keys :=
  StrMap.mem_keys_setEntries k v x m.entries

theorem StrMap.len_set_le (m : StrMap) (k v : String) : (m.set k v).len ≤ m.len + 1 :=
  StrMap.length_setEntries_le k v m.entries

theorem StrMap.nodup_keys_set (m : StrMap) (k v : String) (hm : m.keys.Nodup) :
    (m.set k v).keys.Nodup :=
  StrMap.nodup_keys_setEntries k v m.entries hm

theorem StrMap.get_isSome_iff (m : StrMap) (x : String) :
    (m.get x).isSome = true ↔ x ∈ m.keys :=
  StrMap.getEntries_isSome_iff x m.entries

/-! ## One step of the loop of `getAddress`, by what the interface reports -/

theorem getAddressLoop_error (iface : Interface) (rest : List Interface) (address : StrMap)
    (err : GoError) (h : iface.Addrs = .error err) :
    getAddressLoop (iface :: rest) address = .fatal err := by
  simp [getAddressLoop, h]

theorem getAddressLoop_nil (iface : Interface) (rest : List Interface) (address : StrMap)
    (h : iface.Addrs = .ok .nil) :
    getAddressLoop (iface :: rest) address = getAddressLoop rest address := by
  simp [getAddressLoop, h, Slice.isNil]

theorem getAddressLoop_empty (iface : Interface) (rest : List Interface) (address : StrMap)
    (h : iface.Addrs = .ok (.mk [])) :
    getAddressLoop (iface :: rest) address = .panic (indexOutOfRange 0 0) := by
  simp [getAddressLoop, h, Slice.isNil, Slice.index, Slice.toList, Slice.len]

theorem getAddressLoop_first (iface : Interface) (rest : List Interface) (address : StrMap)
    (a : Addr) (others : List Addr) (h : iface.Addrs = .ok (.mk (a :: others))) :
    getAddressLoop (iface :: rest) address
      = getAddressLoop rest (address.set iface.Name a.String) := by
  simp [getAddressLoop, h, Slice.isNil, Slice.index, Slice.toList]

/-- The four shapes of what an interface reports. -/
theorem Interface.report_cases (iface : Interface) :
    (∃ err, iface.Addrs = .error err) ∨ iface.Addrs = .ok .nil ∨ iface.Addrs = .ok (.mk []) ∨
      ∃ a others, iface.Addrs = .ok (.mk (a :: others)) := by
  cases h : iface.Addrs with
  | error err => exact Or.inl ⟨err, rfl⟩
  | ok addrs =>
    cases addrs with
    | nil => exact Or.inr (Or.inl rfl)
    | mk elems =>
      cases elems with
      | nil => exact Or.inr (Or.inr (Or.inl rfl))
      | cons a others => exact Or.inr (Or.inr (Or.inr ⟨a, others, rfl⟩))

/-! ## Invariants of the loop of `getAddress` -/

theorem Interface.firstAddr_of_first (iface : Interface) (a : Addr) (others : List Addr)
    (h : iface.Addrs = .ok (.mk (a :: others))) : iface.firstAddr = some a := by
  simp [Interface.firstAddr, h, Slice.index, Slice.toList]

theorem Interface.firstAddr_eq_some (iface : Interface) (a : Addr)
    (h : iface.firstAddr = some a) : ∃ others, iface.Addrs = .ok (.mk (a :: others)) := by
  rcases iface.report_cases with ⟨err, he⟩ | he | he | ⟨b, others, he⟩
  · simp [Interface.firstAddr, he] at h
  · simp [Interface.firstAddr, he, Slice.index, Slice.toList] at h
  · simp [Interface.firstAddr, he, Slice.index, Slice.toList] at h
  · refine ⟨others, ?_⟩
    simp [Interface.firstAddr, he, Slice.index, Slice.toList] at h
    rw [he, h]

/-- Keys after the loop: those before it, and the names of the interfaces
with an address. -/
theorem getAddressLoop_keys (ifaces : List Interface) :
    ∀ (address m : StrMap), getAddressLoop ifaces address = .ret m →
      ∀ x, x ∈ m.keys ↔
        x ∈ address.keys ∨ ∃ iface ∈ ifaces, iface.Name = x ∧ iface.hasAddress = true := by
  induction ifaces with
  | nil =>
    intro address m h x
    simp only [getAddressLoop, Outcome.ret.injEq] at h
    simp [h]
  | cons iface rest ih =>
    intro address m h x
    rcases iface.report_cases with ⟨err, he⟩ | he | he | ⟨a, others, he⟩
    · rw [getAddressLoop_error iface rest address err he] at h
      exact absurd h (by simp)
    · rw [getAddressLoop_nil iface rest address he] at h
      have hno : iface.hasAddress = false := by
        simp [Interface.hasAddress, Interface.firstAddr, he, Slice.index, Slice.toList]
      rw [ih address m h x]
      simp [hno]
    · rw [getAddressLoop_empty iface rest address he] at h
      exact absurd h (by simp)
    · rw [getAddressLoop_first iface rest address a others he] at h
      have hyes : iface.hasAddress = true := by
        simp [Interface.hasAddress, Interface.firstAddr_of_first iface a others he]
      rw [ih _ m h x, StrMap.mem_keys_set]
      simp only [List.mem_cons, exists_eq_or_imp, hyes, and_true]
      constructor
      · rintro ((hx | hx) | hx)
        · exact Or.inr (Or.inl hx.symm)
        · exact Or.inl hx
        · exact Or.inr (Or.inr hx)
      · rintro (hx | hx | hx)
        · exact Or.inl (Or.inr hx)
        · exact Or.inl (Or.inl hx.symm)
        · exact Or.inr hx

/-- The loop adds at most one entry per interface. -/
theorem getAddressLoop_len (ifaces : List Interface) :
    ∀ (address m : StrMap), getAddressLoop ifaces address = .ret m →
      m.len ≤ address.len + ifaces.length := by
  induction ifaces with
  | nil =>
    intro address m h
    simp only [getAddressLoop, Outcome.ret.injEq] at h
    simp [h]
  | cons iface rest ih =>
    intro address m h
    rcases iface.report_cases with ⟨err, he⟩ | he | he | ⟨a, others, he⟩
    · rw [getAddressLoop_error iface rest address err he] at h
      exact absurd h (by simp)
    · rw [getAddressLoop_nil iface rest address he] at h
      have := ih address m h
      simp only [List.length_cons]
      omega
    · rw [getAddressLoop_empty iface rest address he] at h
      exact absurd h (by simp)
    · rw [getAddressLoop_first iface rest address a others he] at h
      have h1 := ih _ m h
      have h2 := StrMap.len_set_le address iface.Name a.String
      simp only [List.length_cons]
      omega

/-- The loop keeps the keys of the map distinct. -/
theorem getAddressLoop_nodup (ifaces : List Interface) :
    ∀ (address m : StrMap), getAddressLoop ifaces address = .ret m →
      address.keys.Nodup → m.keys.Nodup := by
  induction ifaces with
  | nil =>
    intro address m h hn
    simp only [getAddressLoop, Outcome.ret.injEq] at h
    simpa [← h] using hn
  | cons iface rest ih =>
    intro address m h hn
    rcases iface.report_cases with ⟨err, he⟩ | he | he | ⟨a, others, he⟩
    · rw [getAddressLoop_error iface rest address err he] at h
      exact absurd h (by simp)
    · rw [getAddressLoop_nil iface rest address he] at h
      exact ih address m h hn
    · rw [getAddressLoop_empty iface rest address he] at h
      exact absurd h (by simp)
    · rw [getAddressLoop_first iface rest address a others he] at h
      exact ih _ m h (StrMap.nodup_keys_set address iface.Name a.String hn)

/-- A key that is the name of no interface left keeps its value. -/
theorem getAddressLoop_get_other (ifaces : List Interface) :
    ∀ (address m : StrMap), getAddressLoop ifaces address = .ret m →
      ∀ x, (∀ iface ∈ ifaces, iface.Name ≠ x) → m.get x = address.get x := by
  induction ifaces with
  | nil =>
    intro address m h x _
    simp only [getAddressLoop, Outcome.ret.injEq] at h
    simp [h]
  | cons iface rest ih =>
    intro address m h x hx
    have hhead : iface.Name ≠ x := hx iface (List.mem_cons_self _ _)
    have htail : ∀ i ∈ rest, i.Name ≠ x := fun i hi => hx i (List.mem_cons_of_mem _ hi)
    rcases iface.report_cases with ⟨err, he⟩ | he | he | ⟨a, others, he⟩
    · rw [getAddressLoop_error iface rest address err he] at h
      exact absurd h (by simp)
    · rw [getAddressLoop_nil iface rest address he] at h
      exact ih address m h x htail
    · rw [getAddressLoop_empty iface rest address he] at h
      exact absurd h (by simp)
    · rw [getAddressLoop_first iface rest address a others he] at h
      rw [ih _ m h x htail]
      exact StrMap.get_set_ne address iface.Name a.String x (Ne.symm hhead)

/-- With distinct interface names, the value under the name of an interface
with an address is the string of its first address. -/
theorem getAddressLoop_get_first (ifaces : List Interface) :
    ∀ (address m : StrMap), getAddressLoop ifaces address = .ret m →
      (ifaces.map Interface.Name).Nodup →
      ∀ iface ∈ ifaces, ∀ a, iface.firstAddr = some a → m.get iface.Name = some a.String := by
  induction ifaces with
  | nil =>
    intro address m _ _ iface hmem
    simp at hmem
  | cons head rest ih =>
    intro address m h hn iface hmem a ha
    simp only [List.map_cons, List.nodup_cons, List.mem_map, not_exists, not_and] at hn
    rcases List.mem_cons.mp hmem with hEq | hIn
    · subst hEq
      obtain ⟨others, he⟩ := iface.firstAddr_eq_some a ha
      rw [getAddressLoop_first iface rest address a others he] at h
      rw [getAddressLoop_get_other rest _ m h iface.Name (fun i hi => hn.1 i hi)]
      exact StrMap.get_set_self address iface.Name a.String
    · rcases head.report_cases with ⟨err, he⟩ | he | he | ⟨b, others, he⟩
      · rw [getAddressLoop_error head rest address err he] at h
        exact absurd h (by simp)
      · rw [getAddressLoop_nil head rest address he] at h
        exact ih address m h hn.2 iface hIn a ha
      · rw [getAddressLoop_empty head rest address he] at h
        exact absurd h (by simp)
      · rw [getAddressLoop_first head rest address b others he] at h
        exact ih _ m h hn.2 iface hIn a ha

/-- The loop returns a map when every interface left gives a plain report. -/
theorem getAddressLoop_returns (ifaces : List Interface) :
    ∀ (address : StrMap), (∀ iface ∈ ifaces, iface.plainReport = true) →
      ∃ m, getAddressLoop ifaces address = .ret m := by
  induction ifaces with
  | nil =>
    intro address _
    exact ⟨address, rfl⟩
  | cons iface rest ih =>
    intro address hp
    have hhead := hp iface (List.mem_cons_self _ _)
    have htail : ∀ i ∈ rest, i.plainReport = true := fun i hi => hp i (List.mem_cons_of_mem _ hi)
    rcases iface.report_cases with ⟨err, he⟩ | he | he | ⟨a, others, he⟩
    · simp [Interface.plainReport, he] at hhead
    · rw [getAddressLoop_nil iface rest address he]
      exact ih address htail
    · simp [Interface.plainReport, he, Slice.isNil, Slice.len, Slice.toList] at hhead
    · rw [getAddressLoop_first iface rest address a others he]
      exact ih _ htail

/-- The loop returns a map only when every interface gives a plain report. -/
theorem getAddressLoop_plain_of_ret (ifaces : List Interface) :
    ∀ (address m : StrMap), getAddressLoop ifaces address = .ret m →
      ∀ iface ∈ ifaces, iface.plainReport = true := by
  induction ifaces with
  | nil =>
    intro address m _ iface hmem
    simp at hmem
  | cons head rest ih =>
    intro address m h iface hmem
    rcases head.report_cases with ⟨err, he⟩ | he | he | ⟨b, others, he⟩
    · rw [getAddressLoop_error head rest address err he] at h
      exact absurd h (by simp)
    · rw [getAddressLoop_nil head rest address he] at h
      rcases List.mem_cons.mp hmem with hEq | hIn
      · subst hEq
        simp [Interface.plainReport, he, Slice.isNil]
      · exact ih address m h iface hIn
    · rw [getAddressLoop_empty head rest address he] at h
      exact absurd h (by simp)
    · rw [getAddressLoop_first head rest address b others he] at h
      rcases List.mem_cons.mp hmem with hEq | hIn
      · subst hEq
        simp [Interface.plainReport, he, Slice.isNil, Slice.len, Slice.toList]
      · exact ih _ m h iface hIn

/-- The loop ends in `log.Fatal` at the first interface whose address query
fails, when the interfaces before it give plain reports. -/
theorem getAddressLoop_fatal (before : List Interface) :
    ∀ (address : StrMap) (iface : Interface) (after : List Interface) (err : GoError),
      (∀ i ∈ before, i.plainReport = true) → iface.Addrs = .error err →
      getAddressLoop (before ++ iface :: after) address = .fatal err := by
  induction before with
  | nil =>
    intro address iface after err _ he
    exact getAddressLoop_error iface after address err he
  | cons head rest ih =>
    intro address iface after err hp he
    have hhead := hp head (List.mem_cons_self _ _)
    have htail : ∀ i ∈ rest, i.plainReport = true := fun i hi => hp i (List.mem_cons_of_mem _ hi)
    rcases head.report_cases with ⟨e, hh⟩ | hh | hh | ⟨b, others, hh⟩
    · simp [Interface.plainReport, hh] at hhead
    · rw [List.cons_append, getAddressLoop_nil head _ address hh]
      exact ih address iface after err htail he
    · simp [Interface.plainReport, hh, Slice.isNil, Slice.len, Slice.toList] at hhead
    · rw [List.cons_append, getAddressLoop_first head _ address b others hh]
      exact ih _ iface after err htail he

/-! ## The health handler -/

/-- C1: for every request context, `status` writes HTTP status 200 and the JSON
object whose only key is "message", with a fixed string value; the response is
the same for every context, and it is what the handler that `main` registers for
`/health` answers on every operating-system state (the handler takes no monitor
state). -/
theorem status_fixed_response (os : OS) (context other : Context) :
    (status context).Writer.status = 200 ∧
    (status context).Writer.body = .json ⟨[("message", .str "It' works")]⟩ ∧
    (H.mk [("message", .str "It' works")]).keys = ["message"] ∧
    (status other).Writer = (status context).Writer ∧
    (mainRoutes.lookup "/health").map
        (fun handler => handler.run os context) = some (.ret (status context)) := by
  refine ⟨rfl, rfl, rfl, rfl, ?_⟩
  simp [mainRoutes, List.lookup, Handler.run]

/-- C5 (as stated, refuted): on a concrete request the payload of `status` is a
JSON object without a field `ok`. -/
theorem status_payload_has_no_ok_field :
    ¬ ∃ obj, (status sampleContext).Writer.body = .json obj ∧ obj.get "ok" = some (.bool true) := by
  rintro ⟨obj, hbody, hok⟩
  simp only [status, Context.JSON, Rendered.json.injEq] at hbody
  subst hbody
  revert hok
  decide

/-- C5 (amended): for every request, the liveness payload of `status` is a JSON
object that contains the field `message` with the fixed value "It' works" and
does not contain a field `ok`. -/
theorem status_payload_message (context : Context) :
    ∃ obj, (status context).Writer.body = .json obj ∧
      obj.get "message" = some (.str "It' works") ∧ obj.get "ok" = none := by
  refine ⟨⟨[("message", .str "It' works")]⟩, rfl, ?_, ?_⟩ <;> decide

/-! ## The identity page -/

/-- C6 (as stated, refuted): on a concrete host the data handed to the template
has three fields, among them `Title`, not two. -/
theorem parseTemplate_data_has_title :
    ∃ ctx data, parseTemplate sampleOS sampleContext = .ret ctx ∧
      ctx.Writer.body = .html "index.html" data ∧
      data.keys = ["Title", "Hostname", "Addresses"] ∧ data.keys.length ≠ 2 ∧
      data.get "Title" = some (.str "kube-pires") := by
  refine ⟨sampleContext.HTML 200 "index.html"
      ⟨[("Title", .str "kube-pires"), ("Hostname", .str "web-1"),
        ("Addresses", .strMap ⟨[("lo", "127.0.0.1/8"), ("eth0", "172.17.0.2/16")]⟩)]⟩,
    ⟨[("Title", .str "kube-pires"), ("Hostname", .str "web-1"),
      ("Addresses", .strMap ⟨[("lo", "127.0.0.1/8"), ("eth0", "172.17.0.2/16")]⟩)]⟩,
    by decide, rfl, by decide, by decide, by decide⟩

/-- C6 (amended): whenever `hostname()` and `getAddress()` return, `parseTemplate`
answers status 200 and hands to the template `index.html` a structure of exactly
three fields: `Title` (the fixed string "kube-pires"), `Hostname` (the result of
`hostname()`) and `Addresses` (the map returned by `getAddress()`). -/
theorem parseTemplate_data (os : OS) (context : Context) (name : String) (address : StrMap)
    (hname : hostname os = .ret name) (haddr : getAddress os = .ret address) :
    ∃ data, parseTemplate os context = .ret (context.HTML 200 "index.html" data) ∧
      data.fields = [("Title", .str "kube-pires"), ("Hostname", .str name),
        ("Addresses", .strMap address)] ∧
      data.keys = ["Title", "Hostname", "Addresses"] := by
  refine ⟨⟨[("Title", .str "kube-pires"), ("Hostname", .str name),
    ("Addresses", .strMap address)]⟩, ?_, rfl, rfl⟩
  simp [parseTemplate, hname, haddr, Outcome.bind, StatusOK]

/-- Witness of `parseTemplate_data` on the sample host. -/
theorem parseTemplate_data_witness :
    ∃ data, parseTemplate sampleOS sampleContext
        = .ret (sampleContext.HTML 200 "index.html" data) ∧
      data.fields = [("Title", .str "kube-pires"), ("Hostname", .str "web-1"),
        ("Addresses", .strMap ⟨[("lo", "127.0.0.1/8"), ("eth0", "172.17.0.2/16")]⟩)] ∧
      data.keys = ["Title", "Hostname", "Addresses"] :=
  parseTemplate_data sampleOS sampleContext "web-1"
    ⟨[("lo", "127.0.0.1/8"), ("eth0", "172.17.0.2/16")]⟩ (by decide) (by decide)

/-! ## Monitor configuration -/

/-- C7 (as stated, refuted): with `GIN_MODE=bogus` in the environment,
`gin.SetMode` panics before `main` reaches the monitor: the monitor keeps the
scrape path and the slow-request threshold it had, not "/metrics" and 10. -/
theorem main_unknown_gin_mode_panics :
    (main (envWithGinMode "bogus") id (.ok ()) defaultMonitor).1
      = .panic "gin mode unknown: bogus (available mode: debug release test)" ∧
    (main (envWithGinMode "bogus") id (.ok ()) defaultMonitor).2.metricPath = "/debug/metrics" ∧
    (main (envWithGinMode "bogus") id (.ok ()) defaultMonitor).2.metricPath ≠ "/metrics" ∧
    (main (envWithGinMode "bogus") id (.ok ()) defaultMonitor).2.slowTime = 5 := by
  decide

/-- C7 (amended): when `GIN_MODE` is unset (empty) or one of "debug", "release"
and "test", then whatever the other environment variables hold, whatever the
monitor held before and whether or not the templates load, `main` configures the
monitor with scrape path "/metrics", slow-request threshold 10 seconds and bucket
upper bounds 0.1, 0.3, 1.2, 5, 10, a strictly ascending sequence. -/
theorem main_monitor_configuration (getenv toLower : String → String)
    (loadHTMLGlob : Except GoError Unit) (monitor : Monitor)
    (hmode : getenv "GIN_MODE" = "" ∨ getenv "GIN_MODE" = "debug" ∨
      getenv "GIN_MODE" = "release" ∨ getenv "GIN_MODE" = "test") :
    (main getenv toLower loadHTMLGlob monitor).2.metricPath = "/metrics" ∧
    (main getenv toLower loadHTMLGlob monitor).2.slowTime = 10 ∧
    (main getenv toLower loadHTMLGlob monitor).2.reqDuration = [0.1, 0.3, 1.2, 5, 10] ∧
    (main getenv toLower loadHTMLGlob monitor).2.reqDuration.Sorted (· < ·) := by
  have hconf : (main getenv toLower loadHTMLGlob monitor).2 = configureMonitor monitor := by
    cases loadHTMLGlob <;> rcases hmode with h | h | h | h <;> simp [main, SetMode, h]
  rw [hconf]
  refine ⟨rfl, rfl, rfl, ?_⟩
  simp only [configureMonitor, Monitor.SetDuration, List.Sorted]
  norm_num

/-- Witness of `main_monitor_configuration`: `GIN_MODE=debug`, the monitor
holding the defaults of `ginmetrics` before. -/
theorem main_monitor_configuration_witness :
    (main (envWithGinMode "debug") id (.ok ()) defaultMonitor).2.metricPath = "/metrics" ∧
    (main (envWithGinMode "debug") id (.ok ()) defaultMonitor).2.slowTime = 10 ∧
    (main (envWithGinMode "debug") id (.ok ()) defaultMonitor).2.reqDuration
      = [0.1, 0.3, 1.2, 5, 10] ∧
    (main (envWithGinMode "debug") id (.ok ()) defaultMonitor).2.reqDuration.Sorted (· < ·) :=
  main_monitor_configuration (envWithGinMode "debug") id (.ok ()) defaultMonitor
    (Or.inr (Or.inl (by decide)))

/-! ## The interface enumerator -/

/-- C3 (as stated, refuted): on a host where `net.Interfaces()` fails,
`getAddress` returns nothing to its caller and the process exits with status 1. -/
theorem getAddress_failure_exits_process :
    getAddress failingOS = .fatal ⟨"route ip+net: netlinkrib: too many open files"⟩ ∧
    (getAddress failingOS).returned = none ∧
    (getAddress failingOS).processExited = true ∧
    (parseTemplate failingOS sampleContext).processExited = true := by
  decide

/-- C3 (amended): when `net.Interfaces()` fails, or when the address query of an
interface fails and every interface before it reported the nil slice or a
non-empty slice, `getAddress` calls `log.Fatal` with that error: nothing (neither
a map nor an error) is returned to its caller and the process exits with status
1; `parseTemplate`, its caller, ends the same way once `hostname()` returned. -/
theorem getAddress_query_failure_is_fatal (os : OS) (err : GoError)
    (hfail : os.Interfaces = .error err ∨
      ∃ before iface after, os.Interfaces = .ok (before ++ iface :: after) ∧
        (∀ i ∈ before, i.plainReport = true) ∧ iface.Addrs = .error err) :
    getAddress os = .fatal err ∧
    (getAddress os).returned = none ∧
    (getAddress os).exitStatus = some 1 ∧
    ∀ (context : Context) (name : String), os.Hostname = .ok name →
      parseTemplate os context = .fatal err := by
  have hfatal : getAddress os = .fatal err := by
    rcases hfail with h | ⟨before, iface, after, h, hp, he⟩
    · simp [getAddress, h]
    · simp only [getAddress, h]
      exact getAddressLoop_fatal before StrMap.empty iface after err hp he
  refine ⟨hfatal, ?_, ?_, ?_⟩
  · rw [hfatal]; rfl
  · rw [hfatal]; rfl
  · intro context name hname
    simp [parseTemplate, hostname, hname, hfatal, Outcome.bind]

/-- Witness of `getAddress_query_failure_is_fatal`: the address query of the
second interface fails. -/
theorem getAddress_query_failure_is_fatal_witness :
    getAddress addrFailingOS = .fatal ⟨"route ip+net: no such network interface"⟩ ∧
    (getAddress addrFailingOS).returned = none ∧
    (getAddress addrFailingOS).exitStatus = some 1 ∧
    parseTemplate addrFailingOS sampleContext
      = .fatal ⟨"route ip+net: no such network interface"⟩ :=
  have h := getAddress_query_failure_is_fatal addrFailingOS
    ⟨"route ip+net: no such network interface"⟩
    (Or.inr ⟨[ifaceLo], ifaceBroken, [ifaceEth0], rfl,
      by intro i hi; rw [List.mem_singleton.mp hi]; rfl, rfl⟩)
  ⟨h.1, h.2.1, h.2.2.1, h.2.2.2 sampleContext "web-1" rfl⟩

/-- C9 (failing input): an interface that reports a non-nil address slice of
length 0 passes the guard `addrs != nil`, the index expression `addrs[0]` is out
of range, and `getAddress` panics. -/
theorem getAddress_empty_slice_panics :
    (Slice.mk ([] : List Addr)).isNil = false ∧
    (Slice.mk ([] : List Addr)).index 0 = none ∧
    getAddress emptySliceOS = .panic "runtime error: index out of range [0] with length 0" := by
  decide

/-- C2: with pairwise distinct interface names, for every reported interface
whose address list has a first element `a`, the map `getAddress` returns
associates the name of the interface with the string of `a` (element 0, whatever
the later elements are); a map is returned whenever every address query
succeeded with the nil slice or a non-empty slice. -/
theorem getAddress_first_bound_address (os : OS) (ifaces : List Interface) (iface : Interface)
    (a : Addr) (others : List Addr)
    (hos : os.Interfaces = .ok ifaces)
    (hnames : (ifaces.map Interface.Name).Nodup)
    (hmem : iface ∈ ifaces)
    (hfirst : iface.Addrs = .ok (.mk (a :: others))) :
    (∀ m, getAddress os = .ret m → m.get iface.Name = some a.String) ∧
    ((∀ i ∈ ifaces, i.plainReport = true) →
      ∃ m, getAddress os = .ret m ∧ m.get iface.Name = some a.String) := by
  have hcond : ∀ m, getAddress os = .ret m → m.get iface.Name = some a.String := by
    intro m hm
    simp only [getAddress, hos] at hm
    exact getAddressLoop_get_first ifaces StrMap.empty m hm hnames iface hmem a
      (iface.firstAddr_of_first a others hfirst)
  refine ⟨hcond, fun hp => ?_⟩
  obtain ⟨m, hm⟩ := getAddressLoop_returns ifaces StrMap.empty hp
  have hret : getAddress os = .ret m := by simp only [getAddress, hos]; exact hm
  exact ⟨m, hret, hcond m hret⟩

/-- Witness of `getAddress_first_bound_address`: the loopback interface of the
sample host has two addresses and is mapped to the first. -/
theorem getAddress_first_bound_address_witness :
    (∀ m, getAddress sampleOS = .ret m → m.get "lo" = some "127.0.0.1/8") ∧
    ∃ m, getAddress sampleOS = .ret m ∧ m.get "lo" = some "127.0.0.1/8" :=
  have h := getAddress_first_bound_address sampleOS [ifaceLo, ifaceEth0, ifaceTunl0] ifaceLo
    ⟨"ip+net", "127.0.0.1/8"⟩ [⟨"ip+net", "::1/128"⟩] rfl (by decide)
    (List.mem_cons_self _ _) rfl
  ⟨h.1, h.2 (by
    intro i hi
    simp only [List.mem_cons, List.mem_singleton, List.not_mem_nil, or_false] at hi
    rcases hi with rfl | rfl | rfl <;> rfl)⟩

/-- Every map `getAddress` returns for a report with an interface that has an
address is not empty, and a map is returned when every address query succeeded
with the nil slice or a non-empty slice. -/
theorem getAddress_nonempty_of_plain (os : OS) (ifaces : List Interface)
    (hos : os.Interfaces = .ok ifaces)
    (hcfg : ∃ iface ∈ ifaces, iface.hasAddress = true) :
    (∀ m, getAddress os = .ret m → 0 < m.len ∧ m ≠ StrMap.empty) ∧
    ((∀ i ∈ ifaces, i.plainReport = true) → ∃ m, getAddress os = .ret m ∧ 0 < m.len) := by
  have hcond : ∀ m, getAddress os = .ret m → 0 < m.len ∧ m ≠ StrMap.empty := by
    intro m hm
    simp only [getAddress, hos] at hm
    obtain ⟨iface, hmem, hhas⟩ := hcfg
    have hkey : iface.Name ∈ m.keys :=
      (getAddressLoop_keys ifaces StrMap.empty m hm iface.Name).mpr
        (Or.inr ⟨iface, hmem, rfl, hhas⟩)
    have hpos : 0 < m.len := by
      simp only [StrMap.keys] at hkey
      simp only [StrMap.len]
      have := List.length_pos_of_mem hkey
      simpa using this
    refine ⟨hpos, fun hempty => ?_⟩
    rw [hempty] at hpos
    simp [StrMap.len, StrMap.empty] at hpos
  refine ⟨hcond, fun hp => ?_⟩
  obtain ⟨m, hm⟩ := getAddressLoop_returns ifaces StrMap.empty hp
  have hret : getAddress os = .ret m := by simp only [getAddress, hos]; exact hm
  exact ⟨m, hret, (hcond m hret).1⟩

/-- C4 (failing input): on a host where every query succeeds and the interface
`lo` has bound addresses, but another interface reports a non-nil address slice
of length 0, `getAddress` panics at `addrs[0]`: no map, empty or not, is
returned. -/
theorem getAddress_configured_host_returns_no_map :
    emptySliceOS.successfulReport = true ∧
    emptySliceOS.Interfaces = .ok [ifaceLo, ifaceGif0] ∧
    ifaceLo.hasAddress = true ∧
    (getAddress emptySliceOS).returned = none ∧
    ¬ ∃ m, getAddress emptySliceOS = .ret m ∧ 0 < m.len := by
  refine ⟨by decide, rfl, by decide, by decide, ?_⟩
  rintro ⟨m, hm, _⟩
  have hnone : (getAddress emptySliceOS).returned = none := by decide
  rw [hm] at hnone
  exact absurd hnone (by simp [Outcome.returned])

/-- The keys of every map `getAddress` returns are exactly the names of the
reported interfaces with at least one bound address, each once: a name none of
whose interfaces has an address is absent, every key is a reported name, and the
map has at most as many entries as there are reported interfaces; a map is
returned when every address query succeeded with the nil slice or a non-empty
slice. -/
theorem getAddress_key_set_of_plain (os : OS) (ifaces : List Interface)
    (hos : os.Interfaces = .ok ifaces) :
    (∀ m, getAddress os = .ret m →
      (∀ x, x ∈ m.keys ↔ ∃ iface ∈ ifaces, iface.Name = x ∧ iface.hasAddress = true) ∧
      m.keys.Nodup ∧
      (∀ iface ∈ ifaces, (∀ j ∈ ifaces, j.Name = iface.Name → j.hasAddress = false) →
        m.get iface.Name = none) ∧
      (∀ x ∈ m.keys, x ∈ ifaces.map Interface.Name) ∧
      m.len ≤ ifaces.length) ∧
    ((∀ i ∈ ifaces, i.plainReport = true) → ∃ m, getAddress os = .ret m) := by
  constructor
  · intro m hm
    simp only [getAddress, hos] at hm
    have hkeys : ∀ x, x ∈ m.keys ↔
        ∃ iface ∈ ifaces, iface.Name = x ∧ iface.hasAddress = true := by
      intro x
      rw [getAddressLoop_keys ifaces StrMap.empty m hm x]
      simp [StrMap.keys, StrMap.empty]
    refine ⟨hkeys, ?_, ?_, ?_, ?_⟩
    · exact getAddressLoop_nodup ifaces StrMap.empty m hm (by simp [StrMap.keys, StrMap.empty])
    · intro iface _ hnone
      have hnot : iface.Name ∉ m.keys := by
        intro hin
        obtain ⟨j, hj, hjn, hjh⟩ := (hkeys iface.Name).mp hin
        rw [hnone j hj hjn] at hjh
        exact absurd hjh (by simp)
      have hsome := (StrMap.get_isSome_iff m iface.Name).not.mpr hnot
      cases hget : m.get iface.Name with
      | none => rfl
      | some v => simp [hget] at hsome
    · intro x hx
      obtain ⟨j, hj, hjn, _⟩ := (hkeys x).mp hx
      exact List.mem_map.mpr ⟨j, hj, hjn⟩
    · have := getAddressLoop_len ifaces StrMap.empty m hm
      simpa [StrMap.len, StrMap.empty] using this
  · intro hp
    obtain ⟨m, hm⟩ := getAddressLoop_returns ifaces StrMap.empty hp
    exact ⟨m, by simp only [getAddress, hos]; exact hm⟩

/-- C10 (failing input): on a host where every query succeeds, the interface
`gif0` has no address and reports a non-nil address slice of length 0; instead of
returning a map that omits `gif0`, `getAddress` panics at `addrs[0]` and returns
no map at all. -/
theorem getAddress_addressless_interface_not_omitted :
    emptySliceOS.successfulReport = true ∧
    emptySliceOS.Interfaces = .ok [ifaceLo, ifaceGif0] ∧
    ifaceGif0.hasAddress = false ∧
    getAddress emptySliceOS = .panic (indexOutOfRange 0 0) ∧
    ¬ ∃ m, getAddress emptySliceOS = .ret m ∧ m.get "gif0" = none := by
  refine ⟨by decide, rfl, by decide, by decide, ?_⟩
  rintro ⟨m, hm, _⟩
  have hpanic : getAddress emptySliceOS = .panic (indexOutOfRange 0 0) := by decide
  rw [hpanic] at hm
  exact absurd hm (by simp)

/-! ## The duration histogram -/

theorem Histogram.zipWith_zipWith_bounds (f g : ℚ → Nat → Nat) :
    ∀ (bs : List ℚ) (cs : List Nat),
      List.zipWith f bs (List.zipWith g bs cs) = List.zipWith (fun b c => f b (g b c)) bs cs := by
  intro bs
  induction bs with
  | nil => intro cs; simp
  | cons b rest ih =>
    intro cs
    cases cs with
    | nil => simp
    | cons c cs => simp [ih]

theorem Histogram.zipWith_bounds_zeros (f : ℚ → Nat → Nat) (bs : List ℚ) :
    List.zipWith f bs (bs.map fun _ => 0) = bs.map fun b => f b 0 := by
  induction bs with
  | nil => rfl
  | cons b rest ih => simp only [List.map_cons, List.zipWith_cons_cons, ih]

theorem Histogram.zipWith_bounds_keep :
    ∀ (bs : List ℚ) (cs : List Nat), cs.length = bs.length →
      List.zipWith (fun _ c => c + 0) bs cs = cs := by
  intro bs
  induction bs with
  | nil =>
    intro cs hlen
    rw [List.length_nil, List.length_eq_zero] at hlen
    simp [hlen]
  | cons b rest ih =>
    intro cs hlen
    cases cs with
    | nil => simp at hlen
    | cons c cs =>
      simp only [List.length_cons, Nat.add_right_cancel_iff] at hlen
      simp only [List.zipWith_cons_cons, Nat.add_zero, List.cons.injEq, true_and]
      simpa using ih cs hlen

theorem Histogram.record_counts_length (h : Histogram) (v : ℚ)
    (hlen : h.counts.length = h.bounds.length) :
    (h.record v).counts.length = (h.record v).bounds.length := by
  simp [Histogram.record, hlen]

/-- State of a histogram after a sequence of observations. -/
theorem Histogram.recordAll_fields (obs : List ℚ) :
    ∀ h : Histogram, h.counts.length = h.bounds.length →
      (h.recordAll obs).bounds = h.bounds ∧
      (h.recordAll obs).counts
        = List.zipWith (fun b c => c + obs.countP fun v => decide (v ≤ b)) h.bounds h.counts ∧
      (h.recordAll obs).infCount = h.infCount + obs.length ∧
      (h.recordAll obs).sum = h.sum + obs.sum ∧
      (h.recordAll obs).count = h.count + obs.length := by
  induction obs with
  | nil =>
    intro h hlen
    refine ⟨rfl, ?_, rfl, by simp [Histogram.recordAll], rfl⟩
    simp only [Histogram.recordAll, List.foldl_nil, List.countP_nil]
    exact (Histogram.zipWith_bounds_keep h.bounds h.counts hlen).symm
  | cons v vs ih =>
    intro h hlen
    obtain ⟨hb, hc, hi, hs, hn⟩ := ih (h.record v) (h.record_counts_length v hlen)
    have hstep : h.recordAll (v :: vs) = (h.record v).recordAll vs := rfl
    rw [hstep]
    refine ⟨hb, ?_, ?_, ?_, ?_⟩
    · rw [hc]
      simp only [Histogram.record]
      rw [Histogram.zipWith_zipWith_bounds]
      congr 1
      funext b c
      rw [List.countP_cons]
      by_cases hvb : v ≤ b
      · simp [hvb]; omega
      · simp [hvb]
    · rw [hi]; simp only [Histogram.record, List.length_cons]; omega
    · rw [hs]; simp only [Histogram.record, List.sum_cons]; ring
    · rw [hn]; simp only [Histogram.record, List.length_cons]; omega

/-- Fields of a freshly declared histogram after a sequence of observations. -/
theorem Histogram.declare_recordAll (bounds obs : List ℚ) :
    ((Histogram.declare bounds).recordAll obs).bounds = bounds ∧
    ((Histogram.declare bounds).recordAll obs).counts
      = bounds.map (fun b => obs.countP fun v => decide (v ≤ b)) ∧
    ((Histogram.declare bounds).recordAll obs).infCount = obs.length ∧
    ((Histogram.declare bounds).recordAll obs).sum = obs.sum ∧
    ((Histogram.declare bounds).recordAll obs).count = obs.length := by
  obtain ⟨hb, hc, hi, hs, hn⟩ :=
    Histogram.recordAll_fields obs (Histogram.declare bounds) (by simp [Histogram.declare])
  refine ⟨hb, ?_, ?_, ?_, ?_⟩
  · rw [hc]
    simp only [Histogram.declare]
    rw [Histogram.zipWith_bounds_zeros]
    simp
  · rw [hi]; simp [Histogram.declare]
  · rw [hs]; simp [Histogram.declare]
  · rw [hn]; simp [Histogram.declare]

/-- The number of observations at most `b` grows with `b`. -/
theorem Histogram.countP_le_mono (obs : List ℚ) (b₁ b₂ : ℚ) (hb : b₁ ≤ b₂) :
    (obs.countP fun v => decide (v ≤ b₁)) ≤ obs.countP fun v => decide (v ≤ b₂) := by
  apply List.countP_mono_left
  intro v _ hv
  simp only [decide_eq_true_eq] at hv ⊢
  exact le_trans hv hb

/-- C8: with the bucket bounds `main` configures, recording the durations 0.05,
0.2, 1.0, 1.0, 7.0 gives the cumulative counts 1, 2, 4, 4, 5, a `+Inf` count of 5,
a total count of 5 and the sum 9.25; for all bounds and observations, the count
of a bucket is the number of observations at most its bound, the `+Inf` count is
the total count (the number of observations), the sum is the sum of the
observations, and the counts are non-decreasing when the bounds are ascending. -/
theorem duration_histogram_counts (monitor : Monitor) (bounds obs : List ℚ) :
    (Histogram.declare (configureMonitor monitor).reqDuration).recordAll
        [0.05, 0.2, 1.0, 1.0, 7.0]
      = { bounds := [0.1, 0.3, 1.2, 5, 10], counts := [1, 2, 4, 4, 5], infCount := 5,
          sum := 9.25, count := 5 } ∧
    ((Histogram.declare bounds).recordAll obs).counts
      = bounds.map (fun b => obs.countP fun v => decide (v ≤ b)) ∧
    ((Histogram.declare bounds).recordAll obs).infCount
      = ((Histogram.declare bounds).recordAll obs).count ∧
    ((Histogram.declare bounds).recordAll obs).count = obs.length ∧
    ((Histogram.declare bounds).recordAll obs).sum = obs.sum ∧
    (bounds.Sorted (· ≤ ·) → ((Histogram.declare bounds).recordAll obs).counts.Sorted (· ≤ ·)) := by
  obtain ⟨_, hc, hi, hs, hn⟩ := Histogram.declare_recordAll bounds obs
  refine ⟨?_, hc, by rw [hi, hn], hn, hs, ?_⟩
  · simp [configureMonitor, Monitor.SetDuration, Histogram.declare, Histogram.recordAll,
      Histogram.record]
    norm_num
  · intro hsorted
    rw [hc]
    exact List.Pairwise.map _ (fun b₁ b₂ hb => Histogram.countP_le_mono obs b₁ b₂ hb) hsorted

/-- Witness of `duration_histogram_counts`: the bounds of `main` are ascending,
so the counts of the example are non-decreasing. -/
theorem duration_histogram_counts_witness :
    (([0.1, 0.3, 1.2, 5, 10] : List ℚ).Sorted (· ≤ ·)) ∧
    ((Histogram.declare [0.1, 0.3, 1.2, 5, 10]).recordAll
      [0.05, 0.2, 1.0, 1.0, 7.0]).counts.Sorted (· ≤ ·) :=
  have hsorted : ([0.1, 0.3, 1.2, 5, 10] : List ℚ).Sorted (· ≤ ·) := by
    simp only [List.Sorted]; norm_num
  ⟨hsorted,
    (duration_histogram_counts defaultMonitor
      [0.1, 0.3, 1.2, 5, 10] [0.05, 0.2, 1.0, 1.0, 7.0]).2.2.2.2.2 hsorted⟩

end KubePires
